import Mathlib

/-!
# Verification of package `crypt` (passphrase-based AES-GCM encryption)

A shallow embedding of `crypt.go`: the four functions of the package
(`createPBKDF`, `RandomSalt`, `Encrypt`, `Decrypt`) together with the library
routines they call (`pbkdf2.Key`, `hmac`, `sha1`, `aes.NewCipher`,
`cipher.NewGCM`, `gcm.Seal`, `gcm.Open`, `io.ReadFull`). The library routines
are written after the algorithms they implement (FIPS 180-4, RFC 2104,
RFC 8018, FIPS 197, NIST SP 800-38D) and are checked against published
answers below; all of them are computable.

Conventions.
* A byte slice is a `List Nat` whose elements stand for bytes (numbers below
  256). Wherever a byte is read as a number it is first reduced modulo 256, so
  that every function is defined on all lists; the theorems hold for all
  lists, lists of bytes among them.
* A Go function returning `([]byte, error)` is an `Outcome`: either the pair
  it returns (with `none` for a nil slice and for a nil error) or a panic.
* A passphrase is the byte sequence of the Go string.
* The process-wide `rand.Reader` is an explicit `Reader` argument: the bytes
  the source delivers to the call, and the error it reports after them.
* Memory is unbounded: no allocation fails.
-/

namespace Crypt

/-- A byte slice, by content. -/
abbrev Bytes := List Nat

/-! ## Byte and word helpers -/

/-- The `w` low-order bytes of `n`, most significant first. -/
def beBytes (n : Nat) : Nat → Bytes
  | 0 => []
  | w + 1 => (n / 256 ^ w) % 256 :: beBytes n w

/-- The number a byte string denotes, most significant byte first. -/
def beNat (bs : Bytes) : Nat :=
  bs.foldl (fun acc b => acc * 256 + b % 256) 0

/-- Bytewise exclusive or, as long as the shorter argument (`subtle.XORBytes`). -/
def xorBytes (a b : Bytes) : Bytes :=
  List.zipWith (fun x y => x ^^^ y) a b

/-- Rotate a 32-bit word left by `k` bits (`bits.RotateLeft32`). -/
def rotl32 (x k : Nat) : Nat :=
  ((x <<< k) ||| (x >>> (32 - k))) % 2 ^ 32

/-! ## SHA-1 (`crypto/sha1`) -/

/-- The initial chaining value of SHA-1. -/
def sha1Init : List Nat :=
  [0x67452301, 0xEFCDAB89, 0x98BADCFE, 0x10325476, 0xC3D2E1F0]

/-- Message padding: a `0x80` byte, zero bytes up to 56 modulo 64, and the
message length in bits as a 64-bit big-endian number. -/
def sha1Pad (msg : Bytes) : Bytes :=
  msg ++ [0x80] ++ List.replicate ((55 + 64 - msg.length % 64) % 64) 0
    ++ beBytes ((8 * msg.length) % 2 ^ 64) 8

/-- The round function and round constant of round `t`. -/
def sha1F (t b c d : Nat) : Nat × Nat :=
  if t < 20 then ((b &&& c) ||| ((b ^^^ 0xFFFFFFFF) &&& d), 0x5A827999)
  else if t < 40 then (b ^^^ c ^^^ d, 0x6ED9EBA1)
  else if t < 60 then (((b ||| c) &&& d) ||| (b &&& c), 0x8F1BBCDC)
  else (b ^^^ c ^^^ d, 0xCA62C1D6)

/-- The working variables `a b c d e` of one compression. -/
structure Sha1Vars where
  a : Nat
  b : Nat
  c : Nat
  d : Nat
  e : Nat

/-- Rounds `t, t+1, ..., t+n-1` of the compression function; `w` is the
sliding window of the last sixteen schedule words, `w[0]` being word `t`. -/
def sha1Rounds : Nat → Nat → List Nat → Sha1Vars → Sha1Vars
  | 0, _, _, v => v
  | n + 1, t, w, v =>
    let wt := w.getD 0 0
    let fk := sha1F t v.b v.c v.d
    let tmp := (rotl32 v.a 5 + fk.1 + v.e + wt + fk.2) % 2 ^ 32
    let next := rotl32 (w.getD 13 0 ^^^ w.getD 8 0 ^^^ w.getD 2 0 ^^^ wt) 1
    sha1Rounds n (t + 1) (w.drop 1 ++ [next])
      { a := tmp, b := v.a, c := rotl32 v.b 30, d := v.c, e := v.d }

/-- The sixteen big-endian 32-bit words of a 64-byte chunk. -/
def sha1Words : Nat → Bytes → List Nat
  | 0, _ => []
  | n + 1, chunk => beNat (chunk.take 4) :: sha1Words n (chunk.drop 4)

/-- One 64-byte block folded into the chaining value (`blockGeneric`). -/
def sha1Block (h : List Nat) (chunk : Bytes) : List Nat :=
  let v0 : Sha1Vars :=
    { a := h.getD 0 0, b := h.getD 1 0, c := h.getD 2 0, d := h.getD 3 0, e := h.getD 4 0 }
  let v := sha1Rounds 80 0 (sha1Words 16 chunk) v0
  [(v0.a + v.a) % 2 ^ 32, (v0.b + v.b) % 2 ^ 32, (v0.c + v.c) % 2 ^ 32,
   (v0.d + v.d) % 2 ^ 32, (v0.e + v.e) % 2 ^ 32]

/-- The chaining value after `n` consecutive 64-byte blocks of `data`. -/
def sha1Blocks : Nat → List Nat → Bytes → List Nat
  | 0, h, _ => h
  | n + 1, h, data => sha1Blocks n (sha1Block h (data.take 64)) (data.drop 64)

/-- The 20-byte SHA-1 digest of `msg` (`sha1.Sum`). -/
def sha1 (msg : Bytes) : Bytes :=
  let padded := sha1Pad msg
  let h := sha1Blocks (padded.length / 64) sha1Init padded
  beBytes (h.getD 0 0) 4 ++ beBytes (h.getD 1 0) 4 ++ beBytes (h.getD 2 0) 4
    ++ beBytes (h.getD 3 0) 4 ++ beBytes (h.getD 4 0) 4

/-! ## HMAC-SHA1 (`crypto/hmac` over `sha1.New`) -/

/-- The 64-byte key block: a key longer than a block is hashed first, then
the key is padded with zero bytes (`hmac.New`). -/
def hmacKeyBlock (key : Bytes) : Bytes :=
  let k := if 64 < key.length then sha1 key else key
  k ++ List.replicate (64 - k.length) 0

/-- The message authentication code of `msg` under `key`. -/
def hmacSHA1 (key msg : Bytes) : Bytes :=
  let k := hmacKeyBlock key
  let ipad := k.map (fun b => (b % 256) ^^^ 0x36)
  let opad := k.map (fun b => (b % 256) ^^^ 0x5c)
  sha1 (opad ++ sha1 (ipad ++ msg))

/-! ## PBKDF2 (`golang.org/x/crypto/pbkdf2`) -/

/-- The inner loop of `pbkdf2.Key`: `n` further rounds `U = PRF(password, U)`,
`T ^= U`, returning the final `T`. -/
def pbkdf2Rounds (password : Bytes) : Nat → Bytes → Bytes → Bytes
  | 0, t, _ => t
  | n + 1, t, u =>
    let u1 := hmacSHA1 password u
    pbkdf2Rounds password n (xorBytes t u1) u1

/-- Block `block` of the derived key: `T = U_1 ^ U_2 ^ ... ^ U_iter`. -/
def pbkdf2Block (password salt : Bytes) (iter block : Nat) : Bytes :=
  let u1 := hmacSHA1 password (salt ++ beBytes block 4)
  pbkdf2Rounds password (iter - 1) u1 u1

/-- Blocks `block, block+1, ...` (`n` of them) of the derived key, concatenated. -/
def pbkdf2Blocks (password salt : Bytes) (iter : Nat) : Nat → Nat → Bytes
  | 0, _ => []
  | n + 1, block =>
    pbkdf2Block password salt iter block ++ pbkdf2Blocks password salt iter n (block + 1)

/-- The hash length of SHA-1 (`prf.Size()`). -/
def sha1Size : Nat := 20

/-- Model of `pbkdf2.Key(password, salt, iter, keyLen, sha1.New)`. -/
def pbkdf2Key (password salt : Bytes) (iter keyLen : Nat) : Bytes :=
  let numBlocks := (keyLen + sha1Size - 1) / sha1Size
  (pbkdf2Blocks password salt iter numBlocks 1).take keyLen

/-- Model of `createPBKDF(key string, salt []byte) []byte`; `key` holds the
bytes of the passphrase string. -/
def createPBKDF (key : Bytes) (salt : Bytes) : Bytes :=
  pbkdf2Key key salt 4096 32

/-! ## AES (`crypto/aes`) -/

/-- The substitution table of the cipher (`sbox0`). -/
def sbox0 : List Nat :=
  [0x63, 0x7c, 0x77, 0x7b, 0xf2, 0x6b, 0x6f, 0xc5, 0x30, 0x01, 0x67, 0x2b, 0xfe, 0xd7, 0xab, 0x76,
   0xca, 0x82, 0xc9, 0x7d, 0xfa, 0x59, 0x47, 0xf0, 0xad, 0xd4, 0xa2, 0xaf, 0x9c, 0xa4, 0x72, 0xc0,
   0xb7, 0xfd, 0x93, 0x26, 0x36, 0x3f, 0xf7, 0xcc, 0x34, 0xa5, 0xe5, 0xf1, 0x71, 0xd8, 0x31, 0x15,
   0x04, 0xc7, 0x23, 0xc3, 0x18, 0x96, 0x05, 0x9a, 0x07, 0x12, 0x80, 0xe2, 0xeb, 0x27, 0xb2, 0x75,
   0x09, 0x83, 0x2c, 0x1a, 0x1b, 0x6e, 0x5a, 0xa0, 0x52, 0x3b, 0xd6, 0xb3, 0x29, 0xe3, 0x2f, 0x84,
   0x53, 0xd1, 0x00, 0xed, 0x20, 0xfc, 0xb1, 0x5b, 0x6a, 0xcb, 0xbe, 0x39, 0x4a, 0x4c, 0x58, 0xcf,
   0xd0, 0xef, 0xaa, 0xfb, 0x43, 0x4d, 0x33, 0x85, 0x45, 0xf9, 0x02, 0x7f, 0x50, 0x3c, 0x9f, 0xa8,
   0x51, 0xa3, 0x40, 0x8f, 0x92, 0x9d, 0x38, 0xf5, 0xbc, 0xb6, 0xda, 0x21, 0x10, 0xff, 0xf3, 0xd2,
   0xcd, 0x0c, 0x13, 0xec, 0x5f, 0x97, 0x44, 0x17, 0xc4, 0xa7, 0x7e, 0x3d, 0x64, 0x5d, 0x19, 0x73,
   0x60, 0x81, 0x4f, 0xdc, 0x22, 0x2a, 0x90, 0x88, 0x46, 0xee, 0xb8, 0x14, 0xde, 0x5e, 0x0b, 0xdb,
   0xe0, 0x32, 0x3a, 0x0a, 0x49, 0x06, 0x24, 0x5c, 0xc2, 0xd3, 0xac, 0x62, 0x91, 0x95, 0xe4, 0x79,
   0xe7, 0xc8, 0x37, 0x6d, 0x8d, 0xd5, 0x4e, 0xa9, 0x6c, 0x56, 0xf4, 0xea, 0x65, 0x7a, 0xae, 0x08,
   0xba, 0x78, 0x25, 0x2e, 0x1c, 0xa6, 0xb4, 0xc6, 0xe8, 0xdd, 0x74, 0x1f, 0x4b, 0xbd, 0x8b, 0x8a,
   0x70, 0x3e, 0xb5, 0x66, 0x48, 0x03, 0xf6, 0x0e, 0x61, 0x35, 0x57, 0xb9, 0x86, 0xc1, 0x1d, 0x9e,
   0xe1, 0xf8, 0x98, 0x11, 0x69, 0xd9, 0x8e, 0x94, 0x9b, 0x1e, 0x87, 0xe9, 0xce, 0x55, 0x28, 0xdf,
   0x8c, 0xa1, 0x89, 0x0d, 0xbf, 0xe6, 0x42, 0x68, 0x41, 0x99, 0x2d, 0x0f, 0xb0, 0x54, 0xbb, 0x16]

/-- The round constants of the key schedule (`powx`). -/
def powx : List Nat :=
  [0x01, 0x02, 0x04, 0x08, 0x10, 0x20, 0x40, 0x80, 0x1b, 0x36, 0x6c, 0xd8, 0xab, 0x4d, 0x9a, 0x2f]

/-- S-box substitution of every byte (`SubBytes`, `subw`). -/
def subBytes (s : Bytes) : Bytes :=
  s.map (fun b => sbox0.getD (b % 256) 0)

/-- Multiplication by `x` in GF(2^8) modulo `x^8 + x^4 + x^3 + x + 1`. -/
def xtime (a : Nat) : Nat :=
  ((a % 256 * 2) ^^^ (if 128 ≤ a % 256 then 0x11b else 0)) % 256

/-- Cyclic shift of row `r` of the state by `r` columns; byte `r + 4 c` of
the state is row `r` of column `c`. -/
def shiftRows (s : Bytes) : Bytes :=
  [0, 5, 10, 15, 4, 9, 14, 3, 8, 13, 2, 7, 12, 1, 6, 11].map (fun i => s.getD i 0)

/-- One column multiplied by the fixed polynomial `{03}x^3 + {01}x^2 + {01}x + {02}`. -/
def mixColumn (a0 a1 a2 a3 : Nat) : Bytes :=
  [xtime a0 ^^^ (xtime a1 ^^^ a1) ^^^ a2 ^^^ a3,
   a0 ^^^ xtime a1 ^^^ (xtime a2 ^^^ a2) ^^^ a3,
   a0 ^^^ a1 ^^^ xtime a2 ^^^ (xtime a3 ^^^ a3),
   (xtime a0 ^^^ a0) ^^^ a1 ^^^ a2 ^^^ xtime a3]

/-- The column mixing step applied to the four columns of the state. -/
def mixColumns (s : Bytes) : Bytes :=
  mixColumn (s.getD 0 0) (s.getD 1 0) (s.getD 2 0) (s.getD 3 0)
    ++ mixColumn (s.getD 4 0) (s.getD 5 0) (s.getD 6 0) (s.getD 7 0)
    ++ mixColumn (s.getD 8 0) (s.getD 9 0) (s.getD 10 0) (s.getD 11 0)
    ++ mixColumn (s.getD 12 0) (s.getD 13 0) (s.getD 14 0) (s.getD 15 0)

/-- Words `i, i+1, ...` (`n` of them) of the key schedule appended to the
words `w` computed so far; `nk` is the key length in words (`expandKeyGo`). -/
def expandKeyWords (nk : Nat) : Nat → Nat → List Bytes → List Bytes
  | 0, _, w => w
  | n + 1, i, w =>
    let prev := w.getD (i - 1) []
    let t :=
      if i % nk = 0 then
        xorBytes (subBytes (prev.drop 1 ++ prev.take 1)) [powx.getD (i / nk - 1) 0, 0, 0, 0]
      else if 6 < nk ∧ i % nk = 4 then subBytes prev
      else prev
    expandKeyWords nk n (i + 1) (w ++ [xorBytes (w.getD (i - nk) []) t])

/-- The key of `4 * nk` bytes cut into `nk` words of four bytes. -/
def keyWords : Nat → Bytes → List Bytes
  | 0, _ => []
  | n + 1, key => (key.take 4).map (fun b => b % 256) :: keyWords n (key.drop 4)

/-- The round keys, sixteen bytes each, from a schedule of four-byte words. -/
def roundKeys : Nat → List Bytes → List Bytes
  | 0, _ => []
  | n + 1, w => (w.take 4).flatten :: roundKeys n (w.drop 4)

/-- An AES block cipher (`aes.aesCipher`): its encryption round keys. -/
structure AesCipher where
  enc : List Bytes
deriving DecidableEq, Repr

/-- The block size of the cipher in bytes (`aes.BlockSize`). -/
def AesCipher.BlockSize (_ : AesCipher) : Nat := 16

/-- Key expansion for a key of 16, 24 or 32 bytes (`newCipher`): `nk + 7`
round keys, where `nk` is the key length in words. -/
def newCipher (key : Bytes) : AesCipher :=
  let nk := key.length / 4
  { enc := roundKeys (nk + 7) (expandKeyWords nk (4 * (nk + 7) - nk) nk (keyWords nk key)) }

/-- The rounds after the initial key addition; the last round has no column mixing. -/
def aesRounds : List Bytes → Bytes → Bytes
  | [], s => s
  | [k], s => xorBytes (shiftRows (subBytes s)) k
  | k :: k2 :: ks, s =>
    aesRounds (k2 :: ks) (xorBytes (mixColumns (shiftRows (subBytes s))) k)

/-- Encryption of the 16-byte block `src` (`Block.Encrypt`); the callers in
this development always pass a full block. -/
def AesCipher.Encrypt (c : AesCipher) (src : Bytes) : Bytes :=
  let s := (List.range 16).map (fun i => src.getD i 0 % 256)
  aesRounds (c.enc.drop 1) (xorBytes s (c.enc.getD 0 []))

/-- The round keys of a usable cipher: at least one, sixteen bytes each. -/
def AesCipher.wellFormed (c : AesCipher) : Prop :=
  0 < c.enc.length ∧ ∀ k ∈ c.enc, k.length = 16

/-! ## Errors, panics and results -/

/-- The error values the package can come across. -/
inductive GoError where
  /-- The error `aes.KeySizeError(k)`: "crypto/aes: invalid key size k". -/
  | KeySizeError (k : Nat)
  /-- The error "cipher: NewGCM requires 128-bit block cipher". -/
  | errGCMBlockSize
  /-- The error `errOpen`: "cipher: message authentication failed". -/
  | errOpen
  /-- The error `io.EOF`. -/
  | EOF
  /-- The error `io.ErrUnexpectedEOF`. -/
  | ErrUnexpectedEOF
  /-- Any other error of the random source. -/
  | sourceError (code : Nat)
deriving DecidableEq, Repr

/-- The run-time panics the package can come across. -/
inductive Panic where
  /-- A slice expression out of range ("slice bounds out of range"). -/
  | sliceBounds
  /-- A method call on a nil interface value. -/
  | nilDereference
  /-- The panic of `make` on a negative length ("makeslice: len out of range"). -/
  | makeLen
  /-- The panic "crypto/cipher: incorrect nonce length given to GCM". -/
  | gcmNonceLength
  /-- The panic "crypto/cipher: message too large for GCM". -/
  | gcmMessageTooLarge
deriving DecidableEq, Repr

/-- The result of a library call with an `error` result: a value with a nil
error, an error with the zero value, or a panic. -/
inductive Res (α : Type) where
  | ok (v : α)
  | err (e : GoError)
  | panic (p : Panic)
deriving DecidableEq, Repr

/-- What a call of a package function with results `([]byte, error)` does:
it returns a slice (`none` is the nil slice) and an error (`none` is nil),
or it panics. -/
inductive Outcome where
  | returned (out : Option Bytes) (err : Option GoError)
  | panicked (p : Panic)
deriving DecidableEq, Repr

/-- The bytes of a returned slice; the nil slice has none. -/
def sliceBytes : Option Bytes → Bytes
  | none => []
  | some bs => bs

/-! ## The random source (`crypto/rand`, `io.ReadFull`) -/

/-- The state of the random source at a call: the bytes it still delivers,
and the error it reports once they are used up. -/
structure Reader where
  stream : Bytes
  err : GoError
deriving DecidableEq, Repr

/-- Model of `io.ReadFull(r, buf)` on a zeroed buffer of `n` bytes: the buffer
afterwards and the error. The read succeeds exactly when the source delivers
`n` bytes; after fewer bytes, though some, `io.EOF` becomes
`io.ErrUnexpectedEOF`. -/
def ReadFull (r : Reader) (n : Nat) : Bytes × Option GoError :=
  if n ≤ r.stream.length then (r.stream.take n, none)
  else
    (r.stream ++ List.replicate (n - r.stream.length) 0,
     some (if 0 < r.stream.length ∧ r.err = GoError.EOF then GoError.ErrUnexpectedEOF
           else r.err))

/-! ## Galois/Counter Mode (`crypto/cipher`) -/

/-- The block size GCM requires (`gcmBlockSize`). -/
def gcmBlockSize : Nat := 16
/-- The tag size of `NewGCM` (`gcmTagSize`). -/
def gcmTagSize : Nat := 16
/-- The nonce size of `NewGCM` (`gcmStandardNonceSize`). -/
def gcmStandardNonceSize : Nat := 12

/-- Model of `aes.NewCipher(key)`. -/
def NewCipher (key : Bytes) : Res AesCipher :=
  if key.length = 16 ∨ key.length = 24 ∨ key.length = 32 then Res.ok (newCipher key)
  else Res.err (GoError.KeySizeError key.length)

/-- An AEAD in Galois/Counter Mode (`cipher.gcm`). The hash subkey `h` stands
for the table of its multiples that the library precomputes. -/
structure GCM where
  cipher : AesCipher
  nonceSize : Nat
  tagSize : Nat
  h : Nat
deriving DecidableEq, Repr

/-- The nonce size of the mode (`gcm.NonceSize`). -/
def GCM.NonceSize (g : GCM) : Nat := g.nonceSize

/-- The AEAD that `NewGCM` builds over a 128-bit block cipher: standard nonce
and tag sizes, and the hash subkey, the encryption of the zero block. -/
def newGCM (c : AesCipher) : GCM :=
  { cipher := c, nonceSize := gcmStandardNonceSize, tagSize := gcmTagSize,
    h := beNat (c.Encrypt (List.replicate 16 0)) }

/-- Model of `cipher.NewGCM(block)`; `none` is the nil `cipher.Block`, on which
the block-size method call panics. -/
def NewGCM (block : Option AesCipher) : Res GCM :=
  match block with
  | none => Res.panic Panic.nilDereference
  | some c =>
    if c.BlockSize ≠ gcmBlockSize then Res.err GoError.errGCMBlockSize
    else Res.ok (newGCM c)

/-- The loop of the multiplication in GF(2^128): the 128 bits of `x` from the
leftmost on, `v` running through `y`, `y·x`, `y·x^2`, ... reduced modulo
`x^128 + x^7 + x^2 + x + 1` (bit `127 - i` of a number is the coefficient of `x^i`). -/
def gcmMulLoop : Nat → Nat → Nat → Nat → Nat
  | 0, _, _, z => z
  | n + 1, x, v, z =>
    gcmMulLoop n x (if v % 2 = 1 then (v >>> 1) ^^^ (0xe1 <<< 120) else v >>> 1)
      (if x.testBit n then z ^^^ v else z)

/-- The product of two field elements (`gcm.mul` multiplies by the subkey). -/
def gcmMul (x y : Nat) : Nat := gcmMulLoop 128 x y 0

/-- Model of `gcm.updateBlocks` over `n` blocks: `y = (y ^ block) · h` for each. -/
def updateBlocks (h : Nat) : Nat → Nat → Bytes → Nat
  | 0, y, _ => y
  | n + 1, y, blocks =>
    updateBlocks h n (gcmMul (y ^^^ beNat (blocks.take 16)) h) (blocks.drop 16)

/-- Model of `gcm.update`: the full blocks of `data`, then the rest padded
with zero bytes to a block. -/
def GCM.update (g : GCM) (y : Nat) (data : Bytes) : Nat :=
  let fullBlocks := (data.length / 16) * 16
  let y1 := updateBlocks g.h (data.length / 16) y (data.take fullBlocks)
  if data.length ≠ fullBlocks then
    updateBlocks g.h 1 y1 (data.drop fullBlocks ++ List.replicate (16 - (data.length - fullBlocks)) 0)
  else y1

/-- Model of `gcmInc32`: the last four bytes of the counter block, as a
big-endian number, incremented modulo 2^32. -/
def gcmInc32 (counter : Bytes) : Bytes :=
  counter.take 12 ++ beBytes ((beNat (counter.drop 12) + 1) % 2 ^ 32) 4

/-- Model of `gcm.deriveCounter`: the initial counter block of a nonce. -/
def GCM.deriveCounter (g : GCM) (nonce : Bytes) : Bytes :=
  if nonce.length = gcmStandardNonceSize then nonce.map (fun b => b % 256) ++ [0, 0, 0, 1]
  else
    beBytes (gcmMul (g.update 0 nonce ^^^ ((nonce.length * 8) % 2 ^ 64)) g.h) 16

/-- Model of `gcm.counterCrypt`: `inp` xored with the key stream of the
counter blocks from `counter` on, one block of input at a time; `fuel` bounds
the number of blocks. -/
def counterCryptLoop (c : AesCipher) : Nat → Bytes → Bytes → Bytes
  | 0, _, _ => []
  | fuel + 1, inp, counter =>
    if gcmBlockSize ≤ inp.length then
      xorBytes (inp.take 16) (c.Encrypt counter)
        ++ counterCryptLoop c fuel (inp.drop 16) (gcmInc32 counter)
    else if 0 < inp.length then xorBytes inp (c.Encrypt counter)
    else []

/-- Model of `gcm.counterCrypt`; a loop of `len(inp)` rounds covers every block. -/
def GCM.counterCrypt (g : GCM) (inp counter : Bytes) : Bytes :=
  counterCryptLoop g.cipher inp.length inp counter

/-- Model of `gcm.auth`: the tag of `ciphertext` and `additionalData`, the
GHASH value xored with `tagMask`. -/
def GCM.auth (g : GCM) (ciphertext additionalData tagMask : Bytes) : Bytes :=
  let y := g.update (g.update 0 additionalData) ciphertext
  let lens := ((additionalData.length * 8) % 2 ^ 64) * 2 ^ 64 + (ciphertext.length * 8) % 2 ^ 64
  xorBytes (beBytes (gcmMul (y ^^^ lens) g.h) 16) tagMask

/-- The largest plaintext of one `Seal`: `((1 << 32) - 2)` blocks. -/
def gcmMaxPlaintext : Nat := (2 ^ 32 - 2) * 16

/-- Model of `gcm.Seal(dst, nonce, plaintext, data)`: `dst` followed by the
ciphertext and the tag. -/
def GCM.Seal (g : GCM) (dst nonce plaintext data : Bytes) : Res Bytes :=
  if nonce.length ≠ g.nonceSize then Res.panic Panic.gcmNonceLength
  else if gcmMaxPlaintext < plaintext.length then Res.panic Panic.gcmMessageTooLarge
  else
    let counter := g.deriveCounter nonce
    let tagMask := g.cipher.Encrypt counter
    let out := g.counterCrypt plaintext (gcmInc32 counter)
    let tag := g.auth out data tagMask
    Res.ok (dst ++ out ++ tag.take g.tagSize)

/-- The comparison `subtle.ConstantTimeCompare(x, y) == 1`: same length and
same bytes. -/
def constantTimeEq (x y : Bytes) : Bool :=
  x.length == y.length && (List.zipWith (fun a b => a % 256 ^^^ b % 256) x y).all (fun v => v == 0)

/-- Model of `gcm.Open(nil, nonce, ciphertext, data)`: the plaintext, or
`errOpen` with a nil slice. With nil for `dst` an empty plaintext is returned
as the nil slice. -/
def GCM.Open (g : GCM) (nonce ciphertext data : Bytes) : Res (Option Bytes) :=
  if nonce.length ≠ g.nonceSize then Res.panic Panic.gcmNonceLength
  else if ciphertext.length < g.tagSize then Res.err GoError.errOpen
  else if gcmMaxPlaintext + g.tagSize < ciphertext.length then Res.err GoError.errOpen
  else
    let tag := ciphertext.drop (ciphertext.length - g.tagSize)
    let ct := ciphertext.take (ciphertext.length - g.tagSize)
    let counter := g.deriveCounter nonce
    let tagMask := g.cipher.Encrypt counter
    let expectedTag := g.auth ct data tagMask
    if constantTimeEq (expectedTag.take g.tagSize) tag then
      let out := g.counterCrypt ct (gcmInc32 counter)
      Res.ok (if ct.length = 0 then none else some out)
    else Res.err GoError.errOpen

/-! ## The package -/

/-- Model of `RandomSalt(size int) (salt []byte, err error)`: the buffer is
returned on both paths. -/
def RandomSalt (rand : Reader) (size : Int) : Outcome :=
  if size < 0 then Outcome.panicked Panic.makeLen
  else
    let r := ReadFull rand size.toNat
    match r.2 with
    | some err => Outcome.returned (some r.1) (some err)
    | none => Outcome.returned (some r.1) none

/-- The statements of `Encrypt` after the key derivation, for a derived key
`key`. The error of `aes.NewCipher` is dropped, so that a failed construction
hands a nil block to `cipher.NewGCM`. -/
def encryptWithKey (rand : Reader) (data key : Bytes) : Outcome :=
  let block : Option AesCipher :=
    match NewCipher key with
    | Res.ok c => some c
    | _ => none
  match NewGCM block with
  | Res.panic p => Outcome.panicked p
  | Res.err err => Outcome.returned none (some err)
  | Res.ok gcm =>
    let r := ReadFull rand gcm.NonceSize
    match r.2 with
    | some err => Outcome.returned none (some err)
    | none =>
      let nonce := r.1
      match gcm.Seal nonce nonce data [] with
      | Res.panic p => Outcome.panicked p
      | Res.err err => Outcome.returned none (some err)
      | Res.ok cipherText => Outcome.returned (some cipherText) none

/-- Model of `Encrypt(data []byte, passphrase string, salt []byte)`: the key
is derived with `createPBKDF`, the rest is `encryptWithKey`. -/
def Encrypt (rand : Reader) (data passphrase salt : Bytes) : Outcome :=
  encryptWithKey rand data (createPBKDF passphrase salt)

/-- The statements of `Decrypt` after the key derivation. The two slice
expressions `data[:nonceSize]` and `data[nonceSize:]` are evaluated before
either result is used; the second is out of range whenever
`nonceSize > len(data)` (and the first already is when `nonceSize > cap(data)`),
so the pair panics exactly when `len(data) < nonceSize`. -/
def decryptWithKey (data key : Bytes) : Outcome :=
  match NewCipher key with
  | Res.panic p => Outcome.panicked p
  | Res.err err => Outcome.returned none (some err)
  | Res.ok block =>
    match NewGCM (some block) with
    | Res.panic p => Outcome.panicked p
    | Res.err err => Outcome.returned none (some err)
    | Res.ok gcm =>
      let nonceSize := gcm.NonceSize
      if data.length < nonceSize then Outcome.panicked Panic.sliceBounds
      else
        let nonce := data.take nonceSize
        let ciphertext := data.drop nonceSize
        match gcm.Open nonce ciphertext [] with
        | Res.panic p => Outcome.panicked p
        | Res.err err => Outcome.returned none (some err)
        | Res.ok plainText => Outcome.returned plainText none

/-- Model of `Decrypt(data []byte, passphrase string, salt []byte)`: the key
is derived with `createPBKDF`, the rest is `decryptWithKey`. -/
def Decrypt (data passphrase salt : Bytes) : Outcome :=
  decryptWithKey data (createPBKDF passphrase salt)

/-- The AEAD that `Encrypt` and `Decrypt` build from a passphrase and a salt:
`cipher.NewGCM` over `aes.NewCipher` of the derived key. -/
def derivedGCM (passphrase salt : Bytes) : GCM :=
  newGCM (newCipher (createPBKDF passphrase salt))

/-- What `Seal` appends to `dst` when there is no additional data: the
ciphertext of `plaintext` in counter mode, and the tag. -/
def GCM.sealed (g : GCM) (nonce plaintext : Bytes) : Bytes :=
  g.counterCrypt plaintext (gcmInc32 (g.deriveCounter nonce))
    ++ (g.auth (g.counterCrypt plaintext (gcmInc32 (g.deriveCounter nonce))) []
          (g.cipher.Encrypt (g.deriveCounter nonce))).take g.tagSize

/-- The blob of a successful `Encrypt` that drew `nonce`: the nonce followed
by the sealed payload. -/
def sealedBlob (nonce data passphrase salt : Bytes) : Bytes :=
  nonce ++ (derivedGCM passphrase salt).sealed nonce data

/-- The facts that tie an AEAD `g` to a key: `aes.NewCipher` accepts the key,
`cipher.NewGCM` builds `g` from that cipher with the standard nonce and tag
sizes, and the round keys are complete. -/
structure Keyed (key : Bytes) (g : GCM) : Prop where
  cipher_ok : NewCipher key = Res.ok g.cipher
  gcm_ok : NewGCM (some g.cipher) = Res.ok g
  nonce_size : g.nonceSize = 12
  tag_size : g.tagSize = 16
  well_formed : g.cipher.wellFormed

/-! ## A worked example -/

/-- The passphrase `"correct horse"`. -/
def examplePassphrase : Bytes :=
  [0x63, 0x6f, 0x72, 0x72, 0x65, 0x63, 0x74, 0x20, 0x68, 0x6f, 0x72, 0x73, 0x65]

/-- A salt of sixteen bytes. -/
def exampleSalt : Bytes :=
  [0x00, 0x01, 0x02, 0x03, 0x04, 0x05, 0x06, 0x07, 0x08, 0x09, 0x0a, 0x0b, 0x0c, 0x0d, 0x0e, 0x0f]

/-- The plaintext `"attack at dawn"`, fourteen bytes. -/
def examplePlaintext : Bytes :=
  [0x61, 0x74, 0x74, 0x61, 0x63, 0x6b, 0x20, 0x61, 0x74, 0x20, 0x64, 0x61, 0x77, 0x6e]

/-- A random source that delivers twelve bytes and then ends. -/
def exampleReader : Reader :=
  { stream := [0x10, 0x11, 0x12, 0x13, 0x14, 0x15, 0x16, 0x17, 0x18, 0x19, 0x1a, 0x1b],
    err := GoError.EOF }

/-- Another random source, with twelve other bytes. -/
def otherReader : Reader :=
  { stream := [0xa0, 0xa1, 0xa2, 0xa3, 0xa4, 0xa5, 0xa6, 0xa7, 0xa8, 0xa9, 0xaa, 0xab],
    err := GoError.EOF }

/-- A random source that fails after three bytes. -/
def failingReader : Reader :=
  { stream := [0x01, 0x02, 0x03], err := GoError.sourceError 5 }

/-- The 32 bytes that `createPBKDF examplePassphrase exampleSalt` evaluates to. -/
def exampleKey : Bytes :=
  [0xa4, 0xf2, 0x0a, 0xfc, 0x33, 0x5e, 0x4d, 0x92, 0x7a, 0xde, 0x34, 0x17, 0xe7, 0x88,
   0x66, 0x1a, 0xdf, 0x15, 0xfd, 0xf8, 0x89, 0x94, 0xec, 0x7a, 0xd1, 0x50, 0x7a, 0xec,
   0x3a, 0xed, 0x70, 0x91]

/-- The 42 bytes that `Encrypt` returns on the worked example. -/
def exampleBlob : Bytes :=
  [0x10, 0x11, 0x12, 0x13, 0x14, 0x15, 0x16, 0x17, 0x18, 0x19, 0x1a, 0x1b, 0x4a, 0x48,
   0xa1, 0x83, 0x18, 0x59, 0x7a, 0x2c, 0xd5, 0x11, 0x79, 0x26, 0xca, 0xd0, 0x6d, 0x6c,
   0xe7, 0x42, 0x79, 0x79, 0x84, 0xb1, 0x74, 0x2e, 0x20, 0xb6, 0xa8, 0x80, 0x63, 0xc0]

/-- The blob of the worked example with the lowest bit of its first
ciphertext byte flipped. -/
def tamperedBlob : Bytes :=
  [0x10, 0x11, 0x12, 0x13, 0x14, 0x15, 0x16, 0x17, 0x18, 0x19, 0x1a, 0x1b, 0x4b, 0x48,
   0xa1, 0x83, 0x18, 0x59, 0x7a, 0x2c, 0xd5, 0x11, 0x79, 0x26, 0xca, 0xd0, 0x6d, 0x6c,
   0xe7, 0x42, 0x79, 0x79, 0x84, 0xb1, 0x74, 0x2e, 0x20, 0xb6, 0xa8, 0x80, 0x63, 0xc0]

/-! ## The model against published answers -/

set_option maxRecDepth 100000 in
/-- The digest of `"abc"` (FIPS 180-4, SHA-1 example). -/
theorem sha1_abc :
    sha1 [0x61, 0x62, 0x63]
      = [0xa9, 0x99, 0x3e, 0x36, 0x47, 0x06, 0x81, 0x6a, 0xba, 0x3e, 0x25, 0x71, 0x78, 0x50,
         0xc2, 0x6c, 0x9c, 0xd0, 0xd8, 0x9d] := by
  decide!

set_option maxRecDepth 100000 in
/-- Test case 2 of RFC 2202: key `"Jefe"`, data `"what do ya want for nothing?"`. -/
theorem hmacSHA1_rfc2202 :
    hmacSHA1 [0x4a, 0x65, 0x66, 0x65]
        [0x77, 0x68, 0x61, 0x74, 0x20, 0x64, 0x6f, 0x20, 0x79, 0x61, 0x20, 0x77, 0x61, 0x6e,
         0x74, 0x20, 0x66, 0x6f, 0x72, 0x20, 0x6e, 0x6f, 0x74, 0x68, 0x69, 0x6e, 0x67, 0x3f]
      = [0xef, 0xfc, 0xdf, 0x6a, 0xe5, 0xeb, 0x2f, 0xa2, 0xd2, 0x74, 0x16, 0xd5, 0xf1, 0x84,
         0xdf, 0x9c, 0x25, 0x9a, 0x7c, 0x79] := by
  decide!

set_option maxRecDepth 100000 in
/-- Test vector 2 of RFC 6070: password `"password"`, salt `"salt"`, two
iterations, twenty bytes. -/
theorem pbkdf2Key_rfc6070 :
    pbkdf2Key [0x70, 0x61, 0x73, 0x73, 0x77, 0x6f, 0x72, 0x64] [0x73, 0x61, 0x6c, 0x74] 2 20
      = [0xea, 0x6c, 0x01, 0x4d, 0xc7, 0x2d, 0x6f, 0x8c, 0xcd, 0x1e, 0xd9, 0x2a, 0xce, 0x1d,
         0x41, 0xf0, 0xd8, 0xde, 0x89, 0x57] := by
  decide!

set_option maxRecDepth 100000 in
/-- The AES-256 example of FIPS 197, appendix C.3. -/
theorem aes256_fips197 :
    (newCipher
        [0x00, 0x01, 0x02, 0x03, 0x04, 0x05, 0x06, 0x07, 0x08, 0x09, 0x0a, 0x0b, 0x0c, 0x0d,
         0x0e, 0x0f, 0x10, 0x11, 0x12, 0x13, 0x14, 0x15, 0x16, 0x17, 0x18, 0x19, 0x1a, 0x1b,
         0x1c, 0x1d, 0x1e, 0x1f]).Encrypt
        [0x00, 0x11, 0x22, 0x33, 0x44, 0x55, 0x66, 0x77, 0x88, 0x99, 0xaa, 0xbb, 0xcc, 0xdd,
         0xee, 0xff]
      = [0x8e, 0xa2, 0xb7, 0xca, 0x51, 0x67, 0x45, 0xbf, 0xea, 0xfc, 0x49, 0x90, 0x4b, 0x49,
         0x60, 0x89] := by
  decide!

set_option maxRecDepth 100000 in
/-- Test case 14 of the GCM specification: AES-256 with the zero key, the zero
nonce and one zero block of plaintext. -/
theorem gcm_test_case_14 :
    (newGCM (newCipher (List.replicate 32 0))).Seal [] (List.replicate 12 0)
        (List.replicate 16 0) []
      = Res.ok
          [0xce, 0xa7, 0x40, 0x3d, 0x4d, 0x60, 0x6b, 0x6e, 0x07, 0x4e, 0xc5, 0xd3, 0xba, 0xf3,
           0x9d, 0x18, 0xd0, 0xd1, 0xc8, 0xa7, 0x99, 0x99, 0x6b, 0xf0, 0x26, 0x5b, 0x98, 0xb5,
           0xd4, 0x8a, 0xb9, 0x19] := by
  decide!

set_option maxRecDepth 100000 in
/-- The worked example under its derived key: encryption gives the 42-byte blob. -/
theorem encryptWithKey_example :
    encryptWithKey exampleReader examplePlaintext exampleKey
      = Outcome.returned (some exampleBlob) none := by
  decide!

set_option maxRecDepth 100000 in
/-- The worked example under its derived key: the blob decrypts to the plaintext. -/
theorem decryptWithKey_example :
    decryptWithKey exampleBlob exampleKey = Outcome.returned (some examplePlaintext) none := by
  decide!

set_option maxRecDepth 100000 in
/-- The worked example under its derived key: one flipped ciphertext bit is rejected. -/
theorem decryptWithKey_tampered :
    decryptWithKey tamperedBlob exampleKey = Outcome.returned none (some GoError.errOpen) := by
  decide!

/-! ## Lengths in the key derivation -/

theorem beBytes_length (n w : Nat) : (beBytes n w).length = w := by
  induction w with
  | zero => rfl
  | succ w ih => simp [beBytes, ih]

theorem xorBytes_length (a b : Bytes) : (xorBytes a b).length = min a.length b.length := by
  simp [xorBytes]

theorem sha1_length (msg : Bytes) : (sha1 msg).length = 20 := by
  simp [sha1, beBytes_length]

theorem hmacSHA1_length (key msg : Bytes) : (hmacSHA1 key msg).length = 20 := by
  simp [hmacSHA1, sha1_length]

theorem pbkdf2Rounds_length (password : Bytes) (n : Nat) (t u : Bytes) (ht : t.length = 20) :
    (pbkdf2Rounds password n t u).length = 20 := by
  induction n generalizing t u with
  | zero => simpa [pbkdf2Rounds] using ht
  | succ n ih =>
    simp only [pbkdf2Rounds]
    apply ih
    simp [xorBytes_length, hmacSHA1_length, ht]

theorem pbkdf2Block_length (password salt : Bytes) (iter block : Nat) :
    (pbkdf2Block password salt iter block).length = 20 := by
  simp only [pbkdf2Block]
  exact pbkdf2Rounds_length _ _ _ _ (hmacSHA1_length _ _)

theorem pbkdf2Blocks_length (password salt : Bytes) (iter n block : Nat) :
    (pbkdf2Blocks password salt iter n block).length = 20 * n := by
  induction n generalizing block with
  | zero => simp [pbkdf2Blocks]
  | succ n ih =>
    simp only [pbkdf2Blocks, List.length_append, pbkdf2Block_length, ih]
    omega

theorem pbkdf2Key_length (password salt : Bytes) (iter keyLen : Nat) :
    (pbkdf2Key password salt iter keyLen).length = keyLen := by
  simp only [pbkdf2Key, List.length_take, pbkdf2Blocks_length, sha1Size]
  omega

theorem createPBKDF_length (key salt : Bytes) : (createPBKDF key salt).length = 32 :=
  pbkdf2Key_length key salt 4096 32

theorem createPBKDF_blocks (key salt : Bytes) :
    createPBKDF key salt
      = (pbkdf2Block key salt 4096 1 ++ pbkdf2Block key salt 4096 2).take 32 := by
  simp [createPBKDF, pbkdf2Key, sha1Size, pbkdf2Blocks]

theorem NewCipher_createPBKDF (key salt : Bytes) :
    NewCipher (createPBKDF key salt) = Res.ok (newCipher (createPBKDF key salt)) := by
  simp [NewCipher, createPBKDF_length]

/-! ## The shape of the AES key schedule -/

theorem keyWords_length (n : Nat) (key : Bytes) : (keyWords n key).length = n := by
  induction n generalizing key with
  | zero => rfl
  | succ n ih => simp [keyWords, ih]

theorem keyWords_word_length (n : Nat) (key : Bytes) (h : 4 * n ≤ key.length) :
    ∀ x ∈ keyWords n key, x.length = 4 := by
  induction n generalizing key with
  | zero => simp [keyWords]
  | succ n ih =>
    intro x hx
    simp only [keyWords, List.mem_cons] at hx
    rcases hx with rfl | hx
    · simp only [List.length_map, List.length_take]
      omega
    · exact ih (key.drop 4) (by simp only [List.length_drop]; omega) x hx

theorem subBytes_length (s : Bytes) : (subBytes s).length = s.length := by
  simp [subBytes]

theorem getD_word_length (w : List Bytes) (j : Nat) (hj : j < w.length)
    (hw : ∀ x ∈ w, x.length = 4) : (w.getD j []).length = 4 := by
  rw [List.getD_eq_getElem w [] hj]
  exact hw _ (List.getElem_mem hj)

theorem expandKeyWords_shape (nk n i : Nat) (w : List Bytes) (hnk : 0 < nk) (hi : nk ≤ i)
    (hlen : w.length = i) (hw : ∀ x ∈ w, x.length = 4) :
    (expandKeyWords nk n i w).length = i + n ∧ ∀ x ∈ expandKeyWords nk n i w, x.length = 4 := by
  induction n generalizing i w with
  | zero => exact ⟨by simpa [expandKeyWords] using hlen, by simpa [expandKeyWords] using hw⟩
  | succ n ih =>
    have hprev : (w.getD (i - 1) []).length = 4 := getD_word_length w _ (by omega) hw
    have hback : (w.getD (i - nk) []).length = 4 := getD_word_length w _ (by omega) hw
    simp only [expandKeyWords]
    have hstep := ih (i + 1)
      (w ++ [xorBytes (w.getD (i - nk) [])
        (if i % nk = 0 then
          xorBytes (subBytes ((w.getD (i - 1) []).drop 1 ++ (w.getD (i - 1) []).take 1))
            [powx.getD (i / nk - 1) 0, 0, 0, 0]
         else if 6 < nk ∧ i % nk = 4 then subBytes (w.getD (i - 1) [])
         else w.getD (i - 1) [])])
      (by omega) (by simp [hlen])
      (by
        intro x hx
        rcases List.mem_append.1 hx with hx | hx
        · exact hw x hx
        · rw [List.mem_singleton] at hx
          subst hx
          rw [xorBytes_length, hback]
          generalize w.getD (i - 1) [] = prev at hprev
          split
          · simp only [xorBytes_length, subBytes_length, List.length_append, List.length_drop,
              List.length_take, List.length_cons, List.length_nil, hprev]
            omega
          · split
            · simp [subBytes_length, hprev]
            · simp [hprev])
    exact ⟨by rw [hstep.1]; omega, hstep.2⟩

theorem roundKeys_shape (n : Nat) (w : List Bytes) (hlen : 4 * n ≤ w.length)
    (hw : ∀ x ∈ w, x.length = 4) :
    (roundKeys n w).length = n ∧ ∀ k ∈ roundKeys n w, k.length = 16 := by
  induction n generalizing w with
  | zero => simp [roundKeys]
  | succ n ih =>
    match w, hlen, hw with
    | a :: b :: c :: d :: rest, hlen, hw =>
      have ha := hw a (by simp)
      have hb := hw b (by simp)
      have hc := hw c (by simp)
      have hd := hw d (by simp)
      have hrest := ih rest (by simp only [List.length_cons] at hlen; omega)
        (fun x hx => hw x (by simp [hx]))
      refine ⟨by simp [roundKeys, hrest.1], ?_⟩
      intro k hk
      simp only [roundKeys, List.mem_cons] at hk
      rcases hk with rfl | hk
      · simp [ha, hb, hc, hd]
      · exact hrest.2 k (by simpa using hk)
    | [], hlen, _ => simp at hlen
    | [_], hlen, _ => simp at hlen; omega
    | [_, _], hlen, _ => simp at hlen; omega
    | [_, _, _], hlen, _ => simp at hlen; omega

theorem newCipher_wellFormed (key : Bytes) (h : key.length = 32) :
    (newCipher key).wellFormed := by
  have hk := keyWords_word_length 8 key (by omega)
  have hs := expandKeyWords_shape 8 52 8 (keyWords 8 key) (by omega) (by omega)
    (keyWords_length 8 key) hk
  have hr := roundKeys_shape 15 (expandKeyWords 8 52 8 (keyWords 8 key)) (by rw [hs.1]) hs.2
  simp only [AesCipher.wellFormed, newCipher, h]
  exact ⟨by rw [hr.1]; omega, hr.2⟩

theorem shiftRows_length (s : Bytes) : (shiftRows s).length = 16 := by
  simp [shiftRows]

theorem mixColumns_length (s : Bytes) : (mixColumns s).length = 16 := by
  simp [mixColumns, mixColumn]

theorem aesRounds_length (keys : List Bytes) (s : Bytes) (hs : s.length = 16)
    (hk : ∀ k ∈ keys, k.length = 16) : (aesRounds keys s).length = 16 := by
  induction keys generalizing s with
  | nil => simpa [aesRounds] using hs
  | cons k ks ih =>
    cases ks with
    | nil => simp [aesRounds, xorBytes_length, shiftRows_length, hk k (by simp)]
    | cons k2 ks =>
      simp only [aesRounds]
      apply ih
      · simp [xorBytes_length, mixColumns_length, hk k (by simp)]
      · intro x hx
        exact hk x (List.mem_cons_of_mem _ hx)

theorem AesCipher.Encrypt_length (c : AesCipher) (hc : c.wellFormed) (src : Bytes) :
    (c.Encrypt src).length = 16 := by
  obtain ⟨hpos, hk⟩ := hc
  simp only [AesCipher.Encrypt]
  apply aesRounds_length
  · have h0 : (c.enc.getD 0 []).length = 16 := by
      rw [List.getD_eq_getElem c.enc [] hpos]
      exact hk _ (List.getElem_mem hpos)
    rw [xorBytes_length, h0]
    simp
  · intro k hmem
    exact hk k (List.mem_of_mem_drop hmem)

/-! ## Counter mode and the tag -/

theorem xor_xor_cancel_right (a b : Nat) : (a ^^^ b) ^^^ b = a := by
  rw [Nat.xor_assoc, Nat.xor_self, Nat.xor_zero]

theorem xorBytes_xorBytes (a k : Bytes) (h : a.length ≤ k.length) :
    xorBytes (xorBytes a k) k = a := by
  induction a generalizing k with
  | nil => simp [xorBytes]
  | cons x xs ih =>
    cases k with
    | nil => simp at h
    | cons y ys =>
      have hxs : xs.length ≤ ys.length := by simpa using h
      have := ih ys hxs
      simp only [xorBytes] at this ⊢
      simp [List.zipWith, this, xor_xor_cancel_right]

theorem counterCryptLoop_length (c : AesCipher) (hc : c.wellFormed) (fuel : Nat)
    (inp counter : Bytes) (hf : inp.length ≤ fuel) :
    (counterCryptLoop c fuel inp counter).length = inp.length := by
  induction fuel generalizing inp counter with
  | zero =>
    have : inp = [] := List.length_eq_zero.1 (by omega)
    simp [counterCryptLoop, this]
  | succ fuel ih =>
    simp only [counterCryptLoop, gcmBlockSize]
    split
    · rename_i h16
      rw [List.length_append, xorBytes_length, AesCipher.Encrypt_length c hc,
        ih _ _ (by simp only [List.length_drop]; omega)]
      simp only [List.length_take, List.length_drop]
      omega
    · split
      · rw [xorBytes_length, AesCipher.Encrypt_length c hc]
        omega
      · simp only [List.length_nil]
        omega

theorem counterCryptLoop_involutive (c : AesCipher) (hc : c.wellFormed) (fuel : Nat)
    (inp counter : Bytes) (hf : inp.length ≤ fuel) :
    counterCryptLoop c fuel (counterCryptLoop c fuel inp counter) counter = inp := by
  induction fuel generalizing inp counter with
  | zero =>
    have : inp = [] := List.length_eq_zero.1 (by omega)
    simp [counterCryptLoop, this]
  | succ fuel ih =>
    have hE := AesCipher.Encrypt_length c hc counter
    by_cases h16 : 16 ≤ inp.length
    · have hrest : (inp.drop 16).length ≤ fuel := by
        simp only [List.length_drop]; omega
      have hhead : (xorBytes (inp.take 16) (c.Encrypt counter)).length = 16 := by
        rw [xorBytes_length, hE, List.length_take]; omega
      have hout : counterCryptLoop c (fuel + 1) inp counter
          = xorBytes (inp.take 16) (c.Encrypt counter)
            ++ counterCryptLoop c fuel (inp.drop 16) (gcmInc32 counter) := by
        simp [counterCryptLoop, gcmBlockSize, h16]
      rw [hout]
      have hlen : 16 ≤ (xorBytes (inp.take 16) (c.Encrypt counter)
            ++ counterCryptLoop c fuel (inp.drop 16) (gcmInc32 counter)).length := by
        rw [List.length_append, hhead]; omega
      have htake : (xorBytes (inp.take 16) (c.Encrypt counter)
            ++ counterCryptLoop c fuel (inp.drop 16) (gcmInc32 counter)).take 16
          = xorBytes (inp.take 16) (c.Encrypt counter) := by
        rw [List.take_append_of_le_length (by omega), List.take_of_length_le (by omega)]
      have hdrop : (xorBytes (inp.take 16) (c.Encrypt counter)
            ++ counterCryptLoop c fuel (inp.drop 16) (gcmInc32 counter)).drop 16
          = counterCryptLoop c fuel (inp.drop 16) (gcmInc32 counter) := by
        rw [List.drop_append_of_le_length (by omega), List.drop_of_length_le (by omega)]
        simp
      simp only [counterCryptLoop, gcmBlockSize, hlen, if_true, htake, hdrop]
      rw [ih _ _ hrest, xorBytes_xorBytes _ _ (by rw [hE, List.length_take]; omega)]
      exact List.take_append_drop 16 inp
    · by_cases hpos : 0 < inp.length
      · have hout : counterCryptLoop c (fuel + 1) inp counter
            = xorBytes inp (c.Encrypt counter) := by
          simp [counterCryptLoop, gcmBlockSize, h16, hpos]
        rw [hout]
        have hl : (xorBytes inp (c.Encrypt counter)).length = inp.length := by
          rw [xorBytes_length, hE]; omega
        simp only [counterCryptLoop, gcmBlockSize, hl, h16, hpos, if_true, if_false]
        exact xorBytes_xorBytes _ _ (by rw [hE]; omega)
      · have : inp = [] := List.length_eq_zero.1 (by omega)
        simp [counterCryptLoop, this, gcmBlockSize]

theorem GCM.counterCrypt_length (g : GCM) (hc : g.cipher.wellFormed) (inp counter : Bytes) :
    (g.counterCrypt inp counter).length = inp.length :=
  counterCryptLoop_length g.cipher hc inp.length inp counter (Nat.le_refl _)

theorem GCM.counterCrypt_involutive (g : GCM) (hc : g.cipher.wellFormed) (inp counter : Bytes) :
    g.counterCrypt (g.counterCrypt inp counter) counter = inp := by
  simp only [GCM.counterCrypt]
  rw [counterCryptLoop_length g.cipher hc inp.length inp counter (Nat.le_refl _)]
  exact counterCryptLoop_involutive g.cipher hc inp.length inp counter (Nat.le_refl _)

theorem GCM.auth_length (g : GCM) (ciphertext additionalData tagMask : Bytes)
    (hm : tagMask.length = 16) : (g.auth ciphertext additionalData tagMask).length = 16 := by
  simp [GCM.auth, xorBytes_length, beBytes_length, hm]

theorem constantTimeEq_self (x : Bytes) : constantTimeEq x x = true := by
  simp only [constantTimeEq, beq_self_eq_true, Bool.true_and]
  induction x with
  | nil => rfl
  | cons a as ih => simp [List.zipWith, ih]

/-! ## Sealing and opening -/

theorem GCM.sealed_length (g : GCM) (hc : g.cipher.wellFormed) (ht : g.tagSize = 16)
    (nonce plaintext : Bytes) : (g.sealed nonce plaintext).length = plaintext.length + 16 := by
  simp only [GCM.sealed, List.length_append, List.length_take, GCM.counterCrypt_length g hc,
    GCM.auth_length g _ _ _ (AesCipher.Encrypt_length _ hc _), ht, Nat.min_self]

theorem GCM.sealed_take (g : GCM) (hc : g.cipher.wellFormed) (nonce plaintext : Bytes) :
    (g.sealed nonce plaintext).take plaintext.length
      = g.counterCrypt plaintext (gcmInc32 (g.deriveCounter nonce)) := by
  have hct := GCM.counterCrypt_length g hc plaintext (gcmInc32 (g.deriveCounter nonce))
  unfold GCM.sealed
  rw [List.take_append_of_le_length (by omega), List.take_of_length_le (by omega)]

theorem GCM.sealed_drop (g : GCM) (hc : g.cipher.wellFormed) (nonce plaintext : Bytes) :
    (g.sealed nonce plaintext).drop plaintext.length
      = (g.auth (g.counterCrypt plaintext (gcmInc32 (g.deriveCounter nonce))) []
          (g.cipher.Encrypt (g.deriveCounter nonce))).take g.tagSize := by
  have hct := GCM.counterCrypt_length g hc plaintext (gcmInc32 (g.deriveCounter nonce))
  unfold GCM.sealed
  rw [List.drop_append_of_le_length (by omega), List.drop_of_length_le (by omega),
    List.nil_append]

theorem GCM.Seal_sealed (g : GCM) (dst nonce plaintext : Bytes)
    (hn : nonce.length = g.nonceSize) (hp : plaintext.length ≤ gcmMaxPlaintext) :
    g.Seal dst nonce plaintext [] = Res.ok (dst ++ g.sealed nonce plaintext) := by
  have hp2 : ¬ gcmMaxPlaintext < plaintext.length := by omega
  simp [GCM.Seal, GCM.sealed, hn, hp2]

theorem GCM.Seal_too_large (g : GCM) (dst nonce plaintext data : Bytes)
    (hn : nonce.length = g.nonceSize) (hp : gcmMaxPlaintext < plaintext.length) :
    g.Seal dst nonce plaintext data = Res.panic Panic.gcmMessageTooLarge := by
  simp [GCM.Seal, hn, hp]

theorem GCM.Open_sealed (g : GCM) (hc : g.cipher.wellFormed) (ht : g.tagSize = 16)
    (nonce plaintext : Bytes) (hn : nonce.length = g.nonceSize)
    (hp : plaintext.length ≤ gcmMaxPlaintext) :
    g.Open nonce (g.sealed nonce plaintext) []
      = Res.ok (if plaintext.length = 0 then none else some plaintext) := by
  have hlen := GCM.sealed_length g hc ht nonce plaintext
  have hct := GCM.counterCrypt_length g hc plaintext (gcmInc32 (g.deriveCounter nonce))
  have hsub : (g.sealed nonce plaintext).length - g.tagSize = plaintext.length := by omega
  have h0 : ¬ nonce.length ≠ g.nonceSize := by omega
  have h1 : ¬ (g.sealed nonce plaintext).length < g.tagSize := by omega
  have h2 : ¬ gcmMaxPlaintext + g.tagSize < (g.sealed nonce plaintext).length := by omega
  unfold GCM.Open
  simp only [h0, h1, h2, if_false, hsub, GCM.sealed_take g hc, GCM.sealed_drop g hc,
    constantTimeEq_self, if_true, GCM.counterCrypt_involutive g hc, hct]

theorem GCM.Open_short (g : GCM) (nonce ciphertext data : Bytes)
    (hn : nonce.length = g.nonceSize) (hs : ciphertext.length < g.tagSize) :
    g.Open nonce ciphertext data = Res.err GoError.errOpen := by
  simp [GCM.Open, hn, hs]

theorem GCM.Open_err (g : GCM) (nonce ciphertext data : Bytes) (e : GoError)
    (h : g.Open nonce ciphertext data = Res.err e) : e = GoError.errOpen := by
  unfold GCM.Open at h
  split at h
  · cases h
  · split at h
    · cases h; rfl
    · split at h
      · cases h; rfl
      · simp only [] at h
        split at h
        · cases h
        · cases h; rfl

theorem GCM.Open_ok (g : GCM) (hc : g.cipher.wellFormed) (nonce ciphertext data : Bytes)
    (plainText : Option Bytes) (h : g.Open nonce ciphertext data = Res.ok plainText) :
    g.tagSize ≤ ciphertext.length
      ∧ (sliceBytes plainText).length = ciphertext.length - g.tagSize := by
  unfold GCM.Open at h
  split at h
  · cases h
  · split at h
    · cases h
    · rename_i hlen
      split at h
      · cases h
      · simp only [] at h
        split at h
        · simp only [Res.ok.injEq] at h
          subst h
          refine ⟨by omega, ?_⟩
          split
          · rename_i h0
            simp only [List.length_take] at h0
            simp only [sliceBytes, List.length_nil]
            omega
          · simp only [sliceBytes, GCM.counterCrypt_length g hc, List.length_take]
            omega
        · cases h

/-! ## The random source -/

theorem ReadFull_ok (rand : Reader) (n : Nat) (h : n ≤ rand.stream.length) :
    ReadFull rand n = (rand.stream.take n, none) := by
  simp [ReadFull, h]

theorem ReadFull_err (rand : Reader) (n : Nat) (h : rand.stream.length < n) :
    ∃ err, (ReadFull rand n).2 = some err := by
  have h2 : ¬ n ≤ rand.stream.length := by omega
  simp [ReadFull, h2]

/-! ## The bodies of `Encrypt` and `Decrypt`, for any key that builds an AEAD -/

theorem encryptWithKey_eq (rand : Reader) (data key : Bytes) (g : GCM) (hk : Keyed key g) :
    encryptWithKey rand data key =
      match (ReadFull rand 12).2 with
      | some err => Outcome.returned none (some err)
      | none =>
        match g.Seal (ReadFull rand 12).1 (ReadFull rand 12).1 data [] with
        | Res.panic p => Outcome.panicked p
        | Res.err err => Outcome.returned none (some err)
        | Res.ok cipherText => Outcome.returned (some cipherText) none := by
  simp only [encryptWithKey, hk.cipher_ok, hk.gcm_ok, GCM.NonceSize, hk.nonce_size]

theorem decryptWithKey_eq (data key : Bytes) (g : GCM) (hk : Keyed key g) :
    decryptWithKey data key =
      if data.length < 12 then Outcome.panicked Panic.sliceBounds
      else
        match g.Open (data.take 12) (data.drop 12) [] with
        | Res.panic p => Outcome.panicked p
        | Res.err err => Outcome.returned none (some err)
        | Res.ok plainText => Outcome.returned plainText none := by
  simp only [decryptWithKey, hk.cipher_ok, hk.gcm_ok, GCM.NonceSize, hk.nonce_size]

theorem encryptWithKey_source_error (rand : Reader) (data key : Bytes) (g : GCM)
    (hk : Keyed key g) (err : GoError) (h : (ReadFull rand 12).2 = some err) :
    encryptWithKey rand data key = Outcome.returned none (some err) := by
  rw [encryptWithKey_eq rand data key g hk, h]

theorem encryptWithKey_sealed (rand : Reader) (data key : Bytes) (g : GCM) (hk : Keyed key g)
    (hr : 12 ≤ rand.stream.length) (hd : data.length ≤ gcmMaxPlaintext) :
    encryptWithKey rand data key
      = Outcome.returned
          (some (rand.stream.take 12 ++ g.sealed (rand.stream.take 12) data)) none := by
  have hn : (rand.stream.take 12).length = g.nonceSize := by
    rw [hk.nonce_size, List.length_take]; omega
  rw [encryptWithKey_eq rand data key g hk, ReadFull_ok rand 12 hr]
  simp only []
  rw [GCM.Seal_sealed g _ _ _ hn hd]

theorem encryptWithKey_too_large (rand : Reader) (data key : Bytes) (g : GCM) (hk : Keyed key g)
    (hr : 12 ≤ rand.stream.length) (hd : gcmMaxPlaintext < data.length) :
    encryptWithKey rand data key = Outcome.panicked Panic.gcmMessageTooLarge := by
  have hn : (rand.stream.take 12).length = g.nonceSize := by
    rw [hk.nonce_size, List.length_take]; omega
  rw [encryptWithKey_eq rand data key g hk, ReadFull_ok rand 12 hr]
  simp only []
  rw [GCM.Seal_too_large g _ _ _ _ hn hd]

theorem encryptWithKey_returned_blob (rand : Reader) (data key : Bytes) (g : GCM)
    (hk : Keyed key g) (blob : Bytes)
    (h : encryptWithKey rand data key = Outcome.returned (some blob) none) :
    12 ≤ rand.stream.length ∧ data.length ≤ gcmMaxPlaintext
      ∧ blob = rand.stream.take 12 ++ g.sealed (rand.stream.take 12) data := by
  have hr : 12 ≤ rand.stream.length := by
    by_contra hlt
    obtain ⟨err, he⟩ := ReadFull_err rand 12 (by omega)
    rw [encryptWithKey_source_error rand data key g hk err he] at h
    cases h
  have hd : data.length ≤ gcmMaxPlaintext := by
    by_contra hgt
    rw [encryptWithKey_too_large rand data key g hk hr (by omega)] at h
    cases h
  refine ⟨hr, hd, ?_⟩
  rw [encryptWithKey_sealed rand data key g hk hr hd] at h
  simp only [Outcome.returned.injEq, Option.some.injEq, and_true] at h
  exact h.symm

theorem encryptWithKey_error_nil (rand : Reader) (data key : Bytes) (g : GCM) (hk : Keyed key g)
    (out : Option Bytes) (err : GoError)
    (h : encryptWithKey rand data key = Outcome.returned out (some err)) : out = none := by
  rw [encryptWithKey_eq rand data key g hk] at h
  split at h
  · simp only [Outcome.returned.injEq] at h
    exact h.1.symm
  · split at h
    · cases h
    · simp only [Outcome.returned.injEq] at h
      exact h.1.symm
    · simp at h

theorem decryptWithKey_short_blob (data key : Bytes) (g : GCM) (hk : Keyed key g)
    (h : data.length < 12) : decryptWithKey data key = Outcome.panicked Panic.sliceBounds := by
  rw [decryptWithKey_eq data key g hk, if_pos h]

theorem decryptWithKey_short_payload (data key : Bytes) (g : GCM) (hk : Keyed key g)
    (h1 : 12 ≤ data.length) (h2 : data.length < 28) :
    decryptWithKey data key = Outcome.returned none (some GoError.errOpen) := by
  have hlt : ¬ data.length < 12 := by omega
  rw [decryptWithKey_eq data key g hk, if_neg hlt, GCM.Open_short]
  · rw [hk.nonce_size, List.length_take]; omega
  · rw [hk.tag_size, List.length_drop]; omega

theorem decryptWithKey_returned_error (data key : Bytes) (g : GCM) (hk : Keyed key g)
    (out : Option Bytes) (err : GoError)
    (h : decryptWithKey data key = Outcome.returned out (some err)) :
    out = none ∧ err = GoError.errOpen := by
  rw [decryptWithKey_eq data key g hk] at h
  split at h
  · cases h
  · split at h
    · cases h
    · rename_i e he
      simp only [Outcome.returned.injEq, Option.some.injEq] at h
      exact ⟨h.1.symm, h.2 ▸ GCM.Open_err _ _ _ _ _ he⟩
    · simp at h

theorem decryptWithKey_returned_plaintext (data key : Bytes) (g : GCM) (hk : Keyed key g)
    (plainText : Option Bytes)
    (h : decryptWithKey data key = Outcome.returned plainText none) :
    28 ≤ data.length ∧ (sliceBytes plainText).length = data.length - 28 := by
  rw [decryptWithKey_eq data key g hk] at h
  split at h
  · cases h
  · rename_i hlen
    split at h
    · cases h
    · simp at h
    · rename_i pt hpt
      simp only [Outcome.returned.injEq, and_true] at h
      subst h
      have := GCM.Open_ok g hk.well_formed _ _ _ _ hpt
      rw [hk.tag_size, List.length_drop] at this
      omega

theorem decryptWithKey_sealed (nonce data key : Bytes) (g : GCM) (hk : Keyed key g)
    (hn : nonce.length = 12) (hd : data.length ≤ gcmMaxPlaintext) :
    decryptWithKey (nonce ++ g.sealed nonce data) key
      = Outcome.returned (if data.length = 0 then none else some data) none := by
  have hlt : ¬ (nonce ++ g.sealed nonce data).length < 12 := by
    rw [List.length_append]; omega
  have htake : (nonce ++ g.sealed nonce data).take 12 = nonce := by
    rw [List.take_append_of_le_length (by omega), List.take_of_length_le (by omega)]
  have hdrop : (nonce ++ g.sealed nonce data).drop 12 = g.sealed nonce data := by
    rw [List.drop_append_of_le_length (by omega), List.drop_of_length_le (by omega),
      List.nil_append]
  rw [decryptWithKey_eq _ key g hk, if_neg hlt, htake, hdrop,
    GCM.Open_sealed g hk.well_formed hk.tag_size nonce data (by rw [hk.nonce_size, hn]) hd]

theorem sliceBytes_of_data (data : Bytes) :
    sliceBytes (if data.length = 0 then none else some data) = data := by
  split
  · rename_i h
    simp [sliceBytes, List.length_eq_zero.1 h]
  · rfl

/-! ## The derived key builds an AEAD -/

theorem NewGCM_some (c : AesCipher) : NewGCM (some c) = Res.ok (newGCM c) := by
  simp [NewGCM, AesCipher.BlockSize, gcmBlockSize]

theorem NewGCM_derived (passphrase salt : Bytes) :
    NewGCM (some (newCipher (createPBKDF passphrase salt)))
      = Res.ok (derivedGCM passphrase salt) :=
  NewGCM_some _

theorem derivedGCM_keyed (passphrase salt : Bytes) :
    Keyed (createPBKDF passphrase salt) (derivedGCM passphrase salt) where
  cipher_ok := NewCipher_createPBKDF passphrase salt
  gcm_ok := NewGCM_derived passphrase salt
  nonce_size := rfl
  tag_size := rfl
  well_formed := newCipher_wellFormed _ (createPBKDF_length passphrase salt)

/-! ## `Encrypt` and `Decrypt` on the derived key -/

theorem Encrypt_def (rand : Reader) (data passphrase salt : Bytes) :
    Encrypt rand data passphrase salt
      = encryptWithKey rand data (createPBKDF passphrase salt) := rfl

theorem Decrypt_def (data passphrase salt : Bytes) :
    Decrypt data passphrase salt = decryptWithKey data (createPBKDF passphrase salt) := rfl

theorem sealedBlob_def (nonce data passphrase salt : Bytes) :
    sealedBlob nonce data passphrase salt
      = nonce ++ (derivedGCM passphrase salt).sealed nonce data := rfl

theorem Encrypt_sealedBlob (rand : Reader) (data passphrase salt : Bytes)
    (hr : 12 ≤ rand.stream.length) (hd : data.length ≤ gcmMaxPlaintext) :
    Encrypt rand data passphrase salt
      = Outcome.returned (some (sealedBlob (rand.stream.take 12) data passphrase salt)) none := by
  rw [Encrypt_def, sealedBlob_def]
  exact encryptWithKey_sealed rand data _ _ (derivedGCM_keyed passphrase salt) hr hd

theorem Encrypt_source_error (rand : Reader) (data passphrase salt : Bytes) (err : GoError)
    (h : (ReadFull rand 12).2 = some err) :
    Encrypt rand data passphrase salt = Outcome.returned none (some err) := by
  rw [Encrypt_def]
  exact encryptWithKey_source_error rand data _ _ (derivedGCM_keyed passphrase salt) err h

theorem Encrypt_returned_blob (rand : Reader) (data passphrase salt blob : Bytes)
    (h : Encrypt rand data passphrase salt = Outcome.returned (some blob) none) :
    12 ≤ rand.stream.length ∧ data.length ≤ gcmMaxPlaintext
      ∧ blob = sealedBlob (rand.stream.take 12) data passphrase salt := by
  rw [Encrypt_def] at h
  rw [sealedBlob_def]
  exact encryptWithKey_returned_blob rand data _ _ (derivedGCM_keyed passphrase salt) blob h

theorem Encrypt_error_nil (rand : Reader) (data passphrase salt : Bytes) (out : Option Bytes)
    (err : GoError) (h : Encrypt rand data passphrase salt = Outcome.returned out (some err)) :
    out = none := by
  rw [Encrypt_def] at h
  exact encryptWithKey_error_nil rand data _ _ (derivedGCM_keyed passphrase salt) out err h

theorem Decrypt_short_blob (data passphrase salt : Bytes) (h : data.length < 12) :
    Decrypt data passphrase salt = Outcome.panicked Panic.sliceBounds := by
  rw [Decrypt_def]
  exact decryptWithKey_short_blob data _ _ (derivedGCM_keyed passphrase salt) h

theorem Decrypt_no_tag (data passphrase salt : Bytes) (h1 : 12 ≤ data.length)
    (h2 : data.length < 28) :
    Decrypt data passphrase salt = Outcome.returned none (some GoError.errOpen) := by
  rw [Decrypt_def]
  exact decryptWithKey_short_payload data _ _ (derivedGCM_keyed passphrase salt) h1 h2

theorem Decrypt_returned_error (data passphrase salt : Bytes) (out : Option Bytes)
    (err : GoError) (h : Decrypt data passphrase salt = Outcome.returned out (some err)) :
    out = none ∧ err = GoError.errOpen := by
  rw [Decrypt_def] at h
  exact decryptWithKey_returned_error data _ _ (derivedGCM_keyed passphrase salt) out err h

theorem Decrypt_returned_plaintext (data passphrase salt : Bytes) (plainText : Option Bytes)
    (h : Decrypt data passphrase salt = Outcome.returned plainText none) :
    28 ≤ data.length ∧ (sliceBytes plainText).length = data.length - 28 := by
  rw [Decrypt_def] at h
  exact decryptWithKey_returned_plaintext data _ _ (derivedGCM_keyed passphrase salt) plainText h

theorem Decrypt_sealedBlob (nonce data passphrase salt : Bytes) (hn : nonce.length = 12)
    (hd : data.length ≤ gcmMaxPlaintext) :
    Decrypt (sealedBlob nonce data passphrase salt) passphrase salt
      = Outcome.returned (if data.length = 0 then none else some data) none := by
  rw [Decrypt_def, sealedBlob_def]
  exact decryptWithKey_sealed nonce data _ _ (derivedGCM_keyed passphrase salt) hn hd

theorem sealedBlob_length (nonce data passphrase salt : Bytes) (hn : nonce.length = 12) :
    (sealedBlob nonce data passphrase salt).length = 12 + data.length + 16 := by
  have hk := derivedGCM_keyed passphrase salt
  rw [sealedBlob_def, List.length_append,
    GCM.sealed_length _ hk.well_formed hk.tag_size, hn]
  omega

theorem sealedBlob_take (nonce data passphrase salt : Bytes) (hn : nonce.length = 12) :
    (sealedBlob nonce data passphrase salt).take 12 = nonce := by
  rw [sealedBlob_def, List.take_append_of_le_length (by omega),
    List.take_of_length_le (by omega)]

theorem sealedBlob_drop (nonce data passphrase salt : Bytes) (hn : nonce.length = 12) :
    (sealedBlob nonce data passphrase salt).drop 12
      = (derivedGCM passphrase salt).sealed nonce data := by
  rw [sealedBlob_def, List.drop_append_of_le_length (by omega),
    List.drop_of_length_le (by omega), List.nil_append]

theorem Decrypt_of_Encrypt (rand : Reader) (data passphrase salt blob : Bytes)
    (h : Encrypt rand data passphrase salt = Outcome.returned (some blob) none) :
    ∃ plainText, Decrypt blob passphrase salt = Outcome.returned plainText none
      ∧ sliceBytes plainText = data := by
  obtain ⟨hr, hd, hb⟩ := Encrypt_returned_blob rand data passphrase salt blob h
  have hn : (rand.stream.take 12).length = 12 := by
    rw [List.length_take]; omega
  refine ⟨if data.length = 0 then none else some data, ?_, sliceBytes_of_data data⟩
  rw [hb]
  exact Decrypt_sealedBlob _ data passphrase salt hn hd

/-! ## `RandomSalt` -/

theorem RandomSalt_ok (rand : Reader) (size : Int) (h0 : 0 ≤ size)
    (hs : size.toNat ≤ rand.stream.length) :
    RandomSalt rand size = Outcome.returned (some (rand.stream.take size.toNat)) none := by
  have hneg : ¬ size < 0 := by omega
  simp only [RandomSalt, hneg, if_false, ReadFull_ok rand _ hs]

theorem RandomSalt_source_error (rand : Reader) (size : Int) (h0 : 0 ≤ size)
    (hs : rand.stream.length < size.toNat) :
    ∃ err, RandomSalt rand size
      = Outcome.returned
          (some (rand.stream ++ List.replicate (size.toNat - rand.stream.length) 0))
          (some err) := by
  have hneg : ¬ size < 0 := by omega
  have hle : ¬ size.toNat ≤ rand.stream.length := by omega
  simp only [RandomSalt, hneg, if_false, ReadFull, hle]
  exact ⟨_, rfl⟩

/-! ## The claims -/

/-- C1, round trip. For every plaintext `data` (the empty one included),
passphrase, salt and state of the random source: if `Encrypt` returns a blob
with a nil error, then `Decrypt` of that blob under the same passphrase and
salt returns a nil error and a slice whose bytes are exactly `data`. -/
theorem Decrypt_Encrypt_round_trip (rand : Reader) (data passphrase salt blob : Bytes)
    (h : Encrypt rand data passphrase salt = Outcome.returned (some blob) none) :
    ∃ plainText, Decrypt blob passphrase salt = Outcome.returned plainText none
      ∧ sliceBytes plainText = data := by
  obtain ⟨hr, hd, hb⟩ := Encrypt_returned_blob rand data passphrase salt blob h
  have hn : (rand.stream.take 12).length = 12 := by
    rw [List.length_take]; omega
  refine ⟨if data.length = 0 then none else some data, ?_, sliceBytes_of_data data⟩
  rw [hb, Decrypt_def, sealedBlob_def]
  exact decryptWithKey_sealed _ data _ _ (derivedGCM_keyed passphrase salt) hn hd

/-- The round trip on the worked example: the blob that `Encrypt` returns for
`"attack at dawn"` decrypts to `"attack at dawn"`. -/
theorem Decrypt_Encrypt_round_trip_witness :
    Encrypt exampleReader examplePlaintext examplePassphrase exampleSalt
        = Outcome.returned
            (some (sealedBlob (exampleReader.stream.take 12) examplePlaintext examplePassphrase
              exampleSalt)) none
      ∧ ∃ plainText,
          Decrypt (sealedBlob (exampleReader.stream.take 12) examplePlaintext examplePassphrase
              exampleSalt) examplePassphrase exampleSalt
            = Outcome.returned plainText none
          ∧ sliceBytes plainText = examplePlaintext :=
  ⟨Encrypt_sealedBlob exampleReader examplePlaintext examplePassphrase exampleSalt
      (by decide) (by decide),
   Decrypt_Encrypt_round_trip exampleReader examplePlaintext examplePassphrase exampleSalt _
      (Encrypt_sealedBlob exampleReader examplePlaintext examplePassphrase exampleSalt
        (by decide) (by decide))⟩

/-- C2, blob wire format. When `Encrypt` returns a blob with a nil error, the
first 12 bytes of the blob are the nonce that `io.ReadFull` drew from the
random source in that call, the remaining bytes are what `Seal` produces for
`data` under that nonce with the AEAD built from the derived key (no
additional data), and the blob is `12 + len(data) + 16` bytes long. -/
theorem Encrypt_blob_wire_format (rand : Reader) (data passphrase salt blob : Bytes)
    (h : Encrypt rand data passphrase salt = Outcome.returned (some blob) none) :
    ∃ block gcm,
      NewCipher (createPBKDF passphrase salt) = Res.ok block
        ∧ NewGCM (some block) = Res.ok gcm
        ∧ gcm.NonceSize = 12 ∧ gcm.tagSize = 16
        ∧ ReadFull rand gcm.NonceSize = (blob.take 12, none)
        ∧ gcm.Seal [] (blob.take 12) data [] = Res.ok (blob.drop 12)
        ∧ blob.length = 12 + data.length + 16 := by
  obtain ⟨hr, hd, hb⟩ := Encrypt_returned_blob rand data passphrase salt blob h
  have hk := derivedGCM_keyed passphrase salt
  have hn : (rand.stream.take 12).length = 12 := by
    rw [List.length_take]; omega
  refine ⟨_, derivedGCM passphrase salt, hk.cipher_ok, hk.gcm_ok, hk.nonce_size, hk.tag_size,
    ?_, ?_, ?_⟩
  · rw [hb, sealedBlob_take _ _ _ _ hn]
    exact ReadFull_ok rand 12 hr
  · rw [hb, sealedBlob_take _ _ _ _ hn, sealedBlob_drop _ _ _ _ hn,
      GCM.Seal_sealed _ _ _ _ (by rw [hk.nonce_size, hn]) hd, List.nil_append]
  · rw [hb]
    exact sealedBlob_length _ _ _ _ hn

/-- The wire format on the worked example: a 14-byte plaintext gives a blob of
42 bytes that starts with the twelve bytes of the random source. -/
theorem Encrypt_blob_wire_format_witness :
    ∃ block gcm,
      NewCipher (createPBKDF examplePassphrase exampleSalt) = Res.ok block
        ∧ NewGCM (some block) = Res.ok gcm
        ∧ gcm.NonceSize = 12 ∧ gcm.tagSize = 16
        ∧ ReadFull exampleReader gcm.NonceSize
            = ((sealedBlob (exampleReader.stream.take 12) examplePlaintext examplePassphrase
                exampleSalt).take 12, none)
        ∧ gcm.Seal [] ((sealedBlob (exampleReader.stream.take 12) examplePlaintext
              examplePassphrase exampleSalt).take 12) examplePlaintext []
            = Res.ok ((sealedBlob (exampleReader.stream.take 12) examplePlaintext
                examplePassphrase exampleSalt).drop 12)
        ∧ (sealedBlob (exampleReader.stream.take 12) examplePlaintext examplePassphrase
            exampleSalt).length = 12 + examplePlaintext.length + 16 :=
  Encrypt_blob_wire_format exampleReader examplePlaintext examplePassphrase exampleSalt _
    (Encrypt_sealedBlob exampleReader examplePlaintext examplePassphrase exampleSalt
      (by decide) (by decide))

/-- C3, truncated blob (the code departs from the claim). For every blob
shorter than the nonce size of 12 bytes, and every passphrase and salt,
`Decrypt` panics on the slice expressions `data[:nonceSize]`,
`data[nonceSize:]`: it returns no error value. -/
theorem Decrypt_truncated_blob_panics (data passphrase salt : Bytes) (h : data.length < 12) :
    Decrypt data passphrase salt = Outcome.panicked Panic.sliceBounds := by
  rw [Decrypt_def, decryptWithKey_eq data _ _ (derivedGCM_keyed passphrase salt), if_pos h]

/-- The empty blob makes `Decrypt` panic. -/
theorem Decrypt_truncated_blob_panics_witness :
    Decrypt [] examplePassphrase exampleSalt = Outcome.panicked Panic.sliceBounds :=
  Decrypt_truncated_blob_panics [] examplePassphrase exampleSalt (by decide)

/-- C5, fresh nonce. Two `Encrypt` calls on the same plaintext, passphrase and
salt that both return a blob and whose reads of the random source filled the
nonce with different bytes return different blobs, and `Decrypt` of either
blob returns the plaintext. -/
theorem Encrypt_fresh_nonce (rand1 rand2 : Reader) (data passphrase salt blob1 blob2 : Bytes)
    (h1 : Encrypt rand1 data passphrase salt = Outcome.returned (some blob1) none)
    (h2 : Encrypt rand2 data passphrase salt = Outcome.returned (some blob2) none)
    (hne : (ReadFull rand1 12).1 ≠ (ReadFull rand2 12).1) :
    blob1 ≠ blob2
      ∧ (∃ plainText, Decrypt blob1 passphrase salt = Outcome.returned plainText none
          ∧ sliceBytes plainText = data)
      ∧ (∃ plainText, Decrypt blob2 passphrase salt = Outcome.returned plainText none
          ∧ sliceBytes plainText = data) := by
  refine ⟨?_, Decrypt_of_Encrypt rand1 data passphrase salt blob1 h1,
    Decrypt_of_Encrypt rand2 data passphrase salt blob2 h2⟩
  obtain ⟨hr1, _, hb1⟩ := Encrypt_returned_blob rand1 data passphrase salt blob1 h1
  obtain ⟨hr2, _, hb2⟩ := Encrypt_returned_blob rand2 data passphrase salt blob2 h2
  have hn1 : (rand1.stream.take 12).length = 12 := by
    rw [List.length_take]; omega
  have hn2 : (rand2.stream.take 12).length = 12 := by
    rw [List.length_take]; omega
  intro hEq
  apply hne
  rw [ReadFull_ok rand1 12 hr1, ReadFull_ok rand2 12 hr2]
  have ht : blob1.take 12 = blob2.take 12 := by rw [hEq]
  rw [hb1, hb2, sealedBlob_take _ _ _ _ hn1, sealedBlob_take _ _ _ _ hn2] at ht
  exact ht

/-- Fresh nonces on the worked example: the two random sources give two
different blobs, each of which decrypts to `"attack at dawn"`. -/
theorem Encrypt_fresh_nonce_witness :
    sealedBlob (exampleReader.stream.take 12) examplePlaintext examplePassphrase exampleSalt
        ≠ sealedBlob (otherReader.stream.take 12) examplePlaintext examplePassphrase exampleSalt
      ∧ (∃ plainText,
          Decrypt (sealedBlob (exampleReader.stream.take 12) examplePlaintext examplePassphrase
              exampleSalt) examplePassphrase exampleSalt
            = Outcome.returned plainText none
          ∧ sliceBytes plainText = examplePlaintext)
      ∧ (∃ plainText,
          Decrypt (sealedBlob (otherReader.stream.take 12) examplePlaintext examplePassphrase
              exampleSalt) examplePassphrase exampleSalt
            = Outcome.returned plainText none
          ∧ sliceBytes plainText = examplePlaintext) :=
  Encrypt_fresh_nonce exampleReader otherReader examplePlaintext examplePassphrase exampleSalt
    _ _
    (Encrypt_sealedBlob exampleReader examplePlaintext examplePassphrase exampleSalt
      (by decide) (by decide))
    (Encrypt_sealedBlob otherReader examplePlaintext examplePassphrase exampleSalt
      (by decide) (by decide))
    (by decide)

/-- C6, key derivation size. For every passphrase and salt (empty ones
included) `createPBKDF` returns exactly 32 bytes, namely the first 32 bytes of
the first two PBKDF2 blocks computed with HMAC-SHA1 and 4096 iterations;
`aes.NewCipher` accepts that key and never returns its key-size error, and
`cipher.NewGCM` accepts the resulting block cipher. -/
theorem createPBKDF_key_size (key salt : Bytes) :
    (createPBKDF key salt).length = 32
      ∧ createPBKDF key salt
          = (pbkdf2Block key salt 4096 1 ++ pbkdf2Block key salt 4096 2).take 32
      ∧ (∃ block gcm, NewCipher (createPBKDF key salt) = Res.ok block
          ∧ NewGCM (some block) = Res.ok gcm)
      ∧ ∀ err, NewCipher (createPBKDF key salt) ≠ Res.err err := by
  refine ⟨createPBKDF_length key salt, createPBKDF_blocks key salt,
    ⟨_, _, NewCipher_createPBKDF key salt, NewGCM_derived key salt⟩, ?_⟩
  intro err herr
  rw [NewCipher_createPBKDF key salt] at herr
  cases herr

/-- C7, generic failure (the code departs from the claim). Under every
passphrase and salt `Decrypt` fails in two ways that a caller can tell apart:
on the empty blob it panics, on a blob of twelve zero bytes it returns
`errOpen` with a nil slice. -/
theorem Decrypt_failures_distinguishable (passphrase salt : Bytes) :
    Decrypt [] passphrase salt = Outcome.panicked Panic.sliceBounds
      ∧ Decrypt (List.replicate 12 0) passphrase salt
          = Outcome.returned none (some GoError.errOpen)
      ∧ Decrypt [] passphrase salt ≠ Decrypt (List.replicate 12 0) passphrase salt := by
  have ha := Decrypt_short_blob [] passphrase salt (by decide)
  have hb := Decrypt_no_tag (List.replicate 12 0) passphrase salt (by decide) (by decide)
  refine ⟨ha, hb, ?_⟩
  rw [ha, hb]
  intro h
  cases h

/-- C8, no partial output on failure. Whenever `Encrypt` or `Decrypt` returns
a non-nil error, the slice returned with it is nil. -/
theorem error_result_has_nil_slice (rand : Reader) (data passphrase salt : Bytes) :
    (∀ out err, Encrypt rand data passphrase salt = Outcome.returned out (some err) → out = none)
      ∧ (∀ out err, Decrypt data passphrase salt = Outcome.returned out (some err)
          → out = none) :=
  ⟨fun out err h => Encrypt_error_nil rand data passphrase salt out err h,
   fun out err h => (Decrypt_returned_error data passphrase salt out err h).1⟩

/-- Both error paths are taken: `Encrypt` returns the error of a random source
that fails after three bytes, `Decrypt` returns `errOpen` on twelve zero
bytes, each with a nil slice. -/
theorem error_result_has_nil_slice_witness :
    (∃ out err, Encrypt failingReader examplePlaintext examplePassphrase exampleSalt
          = Outcome.returned out (some err) ∧ out = none)
      ∧ (∃ out err, Decrypt (List.replicate 12 0) examplePassphrase exampleSalt
          = Outcome.returned out (some err) ∧ out = none) :=
  ⟨⟨none, GoError.sourceError 5,
      Encrypt_source_error failingReader examplePlaintext examplePassphrase exampleSalt
        (GoError.sourceError 5) (by decide),
      (error_result_has_nil_slice failingReader examplePlaintext examplePassphrase
        exampleSalt).1 none (GoError.sourceError 5)
        (Encrypt_source_error failingReader examplePlaintext examplePassphrase exampleSalt
          (GoError.sourceError 5) (by decide))⟩,
   ⟨none, GoError.errOpen,
      Decrypt_no_tag (List.replicate 12 0) examplePassphrase exampleSalt (by decide) (by decide),
      (error_result_has_nil_slice failingReader (List.replicate 12 0) examplePassphrase
        exampleSalt).2 none GoError.errOpen
        (Decrypt_no_tag (List.replicate 12 0) examplePassphrase exampleSalt (by decide)
          (by decide))⟩⟩

/-- C9, `RandomSalt` on entropy failure (the code departs from the claim).
For every size `>= 0` that the random source cannot fill, `RandomSalt` returns
the error together with the whole buffer of `size` bytes: the bytes that were
read, then zero bytes. -/
theorem RandomSalt_returns_buffer_with_error (rand : Reader) (size : Int) (h0 : 0 ≤ size)
    (hs : rand.stream.length < size.toNat) :
    ∃ salt err, RandomSalt rand size = Outcome.returned (some salt) (some err)
      ∧ salt = rand.stream ++ List.replicate (size.toNat - rand.stream.length) 0
      ∧ salt.length = size.toNat := by
  obtain ⟨err, he⟩ := RandomSalt_source_error rand size h0 hs
  refine ⟨_, err, he, rfl, ?_⟩
  rw [List.length_append, List.length_replicate]
  omega

/-- A source that fails after three bytes, asked for a salt of 16 bytes: the
error comes back with a 16-byte buffer. -/
theorem RandomSalt_returns_buffer_with_error_witness :
    RandomSalt failingReader 16
        = Outcome.returned (some [1, 2, 3, 0, 0, 0, 0, 0, 0, 0, 0, 0, 0, 0, 0, 0])
            (some (GoError.sourceError 5))
      ∧ ∃ salt err, RandomSalt failingReader 16 = Outcome.returned (some salt) (some err)
          ∧ salt = failingReader.stream
              ++ List.replicate ((16 : Int).toNat - failingReader.stream.length) 0
          ∧ salt.length = (16 : Int).toNat :=
  ⟨by decide, RandomSalt_returns_buffer_with_error failingReader 16 (by decide) (by decide)⟩

/-- C10, short sealed payload. A blob of at least 12 and fewer than 28 bytes
(12 exactly included) makes `Decrypt` return `errOpen` with a nil slice, under
every passphrase and salt; and whenever `Decrypt` returns a nil error, the
blob has at least 28 bytes and the plaintext has `len(blob) - 12 - 16` bytes. -/
theorem Decrypt_short_sealed_payload (data passphrase salt : Bytes) :
    (12 ≤ data.length → data.length < 12 + 16
        → Decrypt data passphrase salt = Outcome.returned none (some GoError.errOpen))
      ∧ (∀ plainText, Decrypt data passphrase salt = Outcome.returned plainText none
          → 12 + 16 ≤ data.length
            ∧ (sliceBytes plainText).length = data.length - 12 - 16) := by
  refine ⟨fun h1 h2 => Decrypt_no_tag data passphrase salt h1 (by omega), ?_⟩
  intro plainText h
  have := Decrypt_returned_plaintext data passphrase salt plainText h
  omega

/-- Both halves on concrete blobs: twelve zero bytes are rejected, and the
42-byte blob of the worked example decrypts to fourteen bytes. -/
theorem Decrypt_short_sealed_payload_witness :
    Decrypt (List.replicate 12 0) examplePassphrase exampleSalt
        = Outcome.returned none (some GoError.errOpen)
      ∧ 12 + 16 ≤ (sealedBlob (exampleReader.stream.take 12) examplePlaintext
            examplePassphrase exampleSalt).length
      ∧ (sliceBytes (if examplePlaintext.length = 0 then none else some examplePlaintext)).length
          = (sealedBlob (exampleReader.stream.take 12) examplePlaintext examplePassphrase
              exampleSalt).length - 12 - 16 :=
  ⟨(Decrypt_short_sealed_payload (List.replicate 12 0) examplePassphrase exampleSalt).1
      (by decide) (by decide),
   (Decrypt_short_sealed_payload
      (sealedBlob (exampleReader.stream.take 12) examplePlaintext examplePassphrase exampleSalt)
      examplePassphrase exampleSalt).2 _
      (Decrypt_sealedBlob (exampleReader.stream.take 12) examplePlaintext examplePassphrase
        exampleSalt (by decide) (by decide))⟩

end Crypt
